import Mathlib

/-!
Verification of the Morphosyntax-Stanza core against its specification.

The development shallowly embeds the three core components:
* the agreement/template rule engine (src/constraints/agreement.py,
  class AgreementChecker),
* the constraint-filtered beam-search decoder (src/constraints/decoder.py,
  class ConstrainedDecoder),
* the backtracking candidate generator (src/morphological/templates.py,
  class MorphosyntacticTemplate).

Modelling conventions:
* Python dict entries that may be absent become Option values; a feature that
  is present with value "" is `some ""` and is distinguished from an absent
  feature (`none`), matching dict.get semantics.
* Python truthiness of a possibly-absent string (used as `if tg:`) is the
  predicate `truthy` below: present and non-empty.
* Python ints are Int, list indices Nat.  The `head` field is `Option Int`:
  `none` models both a missing key and a non-int value (the code guards with
  isinstance(head, int)).
* numpy float scores are modelled as Int: the beam-search claims under
  verification concern candidate generation, filtering, sorting and
  truncation, none of which depend on the numeric type of the score beyond
  its linear order and addition.
* Python list.sort(key=score, reverse=True) is a stable descending sort; it
  is modelled by insertionSort with the reflexive relation (score b <= score a),
  which is stable and sorts descending.
* The external morphological analyzer is an opaque collaborator; it is a
  function parameter `analyze : String -> List Token`.
-/

/-- The features dict of a token; only the keys gender, number, person are
ever consulted by the code. -/
structure Features where
  gender : Option String
  number : Option String
  person : Option String
deriving DecidableEq, Repr

/-- A token record as produced by the analyzer (see the docstring of
AgreementChecker and the token schema in the analyzer).  The Python field
named lemma is spelled lemma_ because lemma is a Lean keyword. -/
structure Token where
  text : Option String
  lemma_ : Option String
  pos : Option String
  dep : Option String
  head : Option Int
  features : Features
deriving DecidableEq, Repr

/-- A token with every field absent, used as the default for getD lookups
(which in the code are only performed at in-range indices). -/
def dfltToken : Token :=
  ⟨none, none, none, none, none, ⟨none, none, none⟩⟩

/-- Python truthiness of a possibly-absent string value: present and
non-empty. -/
def truthy : Option String → Bool
  | none => false
  | some s => !(s == "")

/-- Membership of a possibly-absent tag in a set of tags
(Python: t.get("pos") in SET, false when the value is None). -/
def posIn (p : Option String) (l : List String) : Bool :=
  match p with
  | some s => l.contains s
  | none => false

/-- AgreementChecker._POS_GENDER. -/
def POS_GENDER : List String := ["DET", "ADJ", "NOUN"]

/-- AgreementChecker._POS_NUMBER. -/
def POS_NUMBER : List String := ["DET", "ADJ", "NOUN", "VERB"]

/-- AgreementChecker._DEP_SUBJ. -/
def DEP_SUBJ : List String := ["nsubj", "nsubj:pass"]

/-- The constructor configuration of AgreementChecker.  The numeric caps are
Nat (the code only ever uses non-negative values). -/
structure AgreementChecker where
  pre_adj_max : Nat := 1
  post_adj_max : Nat := 2
  max_total_adjs : Nat := 3
  max_consecutive_same_adj : Nat := 1
  max_same_adj_per_sentence : Nat := 1
  require_det : Bool := true
  require_noun : Bool := true
  default_subj_person : String := "3"
deriving DecidableEq, Repr

/-- AgreementChecker() with all defaults, as constructed by
ConstrainedDecoder.__init__ and MorphosyntacticTemplate.__init__. -/
def defaultChecker : AgreementChecker := {}

/-- Loop of AgreementChecker.check_gender_agreement: g is the running
canonical gender value. -/
def genderAux : Option String → List Token → Bool
  | _, [] => true
  | none, t :: ts =>
    if posIn t.pos POS_GENDER && truthy t.features.gender then
      genderAux t.features.gender ts
    else genderAux none ts
  | some gv, t :: ts =>
    if posIn t.pos POS_GENDER && truthy t.features.gender then
      if t.features.gender == some gv then genderAux (some gv) ts else false
    else genderAux (some gv) ts

/-- AgreementChecker.check_gender_agreement (uses no configuration fields). -/
def check_gender_agreement (tokens : List Token) : Bool :=
  genderAux none tokens

/-- AgreementChecker._subjects_by_head, read through its only use pattern
subj_map.get(h, []): the positions i, in increasing order, whose token has a
subject dependency label and integer head equal to h. -/
def subjectsOfHead (tokens : List Token) (h : Int) : List Nat :=
  (List.range tokens.length).filter (fun i =>
    let t := tokens.getD i dfltToken
    posIn t.dep DEP_SUBJ && t.head == some h)

/-- The inner subject loop of the VERB branch of check_number_agreement:
every mapped subject of the verb at position i either declares no number or
declares the number n of the verb. -/
def verbSubjOk (T : List Token) (i : Nat) (n : Option String) : Bool :=
  (subjectsOfHead T (Int.ofNat i)).all (fun si =>
    let sn := (T.getD si dfltToken).features.number
    !(truthy sn) || sn == n)

/-- Loop of AgreementChecker.check_number_agreement: T is the whole sequence
(used for the subject map), i the position of the token at the head of the
remaining list, base the running canonical number of the non-verb tokens. -/
def numberAux (T : List Token) : Nat → Option String → List Token → Bool
  | _, _, [] => true
  | i, none, t :: ts =>
    if !(posIn t.pos POS_NUMBER) then numberAux T (i + 1) none ts
    else if !(truthy t.features.number) then numberAux T (i + 1) none ts
    else if t.pos == some "VERB" then
      if verbSubjOk T i t.features.number then numberAux T (i + 1) none ts else false
    else numberAux T (i + 1) t.features.number ts
  | i, some b, t :: ts =>
    if !(posIn t.pos POS_NUMBER) then numberAux T (i + 1) (some b) ts
    else if !(truthy t.features.number) then numberAux T (i + 1) (some b) ts
    else if t.pos == some "VERB" then
      if verbSubjOk T i t.features.number then numberAux T (i + 1) (some b) ts else false
    else
      if t.features.number == some b then numberAux T (i + 1) (some b) ts else false

/-- AgreementChecker.check_number_agreement (uses no configuration fields). -/
def check_number_agreement (tokens : List Token) : Bool :=
  numberAux tokens 0 none tokens

/-- The body of the subject loop of check_subject_verb_agreement for one
(subject, verb) pair: the two early-return tests, conjoined. -/
def svPairOk (c : AgreementChecker) (s v : Token) : Bool :=
  !(truthy s.features.number && truthy v.features.number
      && !(s.features.number == v.features.number)) &&
  (let sp := match s.features.person with
    | none => c.default_subj_person
    | some p => p
   !(truthy v.features.person && !(some sp == v.features.person)))

/-- Loop of AgreementChecker.check_subject_verb_agreement: vi is the position
of the token at the head of the remaining list. -/
def svAux (c : AgreementChecker) (T : List Token) : Nat → List Token → Bool
  | _, [] => true
  | vi, v :: ts =>
    if !(v.pos == some "VERB") then svAux c T (vi + 1) ts
    else if (subjectsOfHead T (Int.ofNat vi)).all
        (fun si => svPairOk c (T.getD si dfltToken) v) then
      svAux c T (vi + 1) ts
    else false

/-- AgreementChecker.check_subject_verb_agreement. -/
def check_subject_verb_agreement (c : AgreementChecker) (tokens : List Token) : Bool :=
  svAux c tokens 0 tokens

/-- The two adjective-run while loops of check_syntax_template: consume
leading ADJ tags while the counter is below the cap; returns the final
counter and the unconsumed remainder. -/
def adjRun (maxAdj : Nat) : Nat → List (Option String) → Nat × List (Option String)
  | cnt, [] => (cnt, [])
  | cnt, p :: rest =>
    if p == some "ADJ" && cnt < maxAdj then adjRun maxAdj (cnt + 1) rest
    else (cnt, p :: rest)

/-- The DET and NOUN phases of check_syntax_template: when the tag is
required the head must match it (failure is none); when optional a matching
head is consumed and a non-matching head is left in place. -/
def tagPhase (required : Bool) (tag : String) : List (Option String) → Option (List (Option String))
  | [] => if required then none else some []
  | p :: rest =>
    if required then (if p == some tag then some rest else none)
    else (if p == some tag then some rest else some (p :: rest))

/-- AgreementChecker.check_syntax_template. -/
def check_syntax_template (c : AgreementChecker) (tokens : List Token) : Bool :=
  if tokens.isEmpty then false
  else
    let pos := tokens.map Token.pos
    match tagPhase c.require_det "DET" pos with
    | none => false
    | some l1 =>
      let pr := adjRun c.pre_adj_max 0 l1
      let preFail := match pr.2 with
        | p :: _ => p == some "ADJ" && c.pre_adj_max ≤ pr.1
        | [] => false
      if preFail then false
      else
        match tagPhase c.require_noun "NOUN" pr.2 with
        | none => false
        | some l2 =>
          let po := adjRun c.post_adj_max 0 l2
          po.2.isEmpty

/-- Python expression (a or b) on possibly-absent strings: the first truthy
operand, else b. -/
def pyOr (a b : Option String) : Option String :=
  match a with
  | some s => if s == "" then b else some s
  | none => b

/-- Python str.strip(): remove leading and trailing whitespace.  Defined by
structural recursion on the character list (Lean's String.trim is
extensionally the same on such inputs but does not reduce in the kernel). -/
def pyStrip (s : String) : String :=
  String.mk (((s.data.dropWhile Char.isWhitespace).reverse.dropWhile
    Char.isWhitespace).reverse)

/-- Python str.lower(), as the character-wise case mapping. -/
def pyLower (s : String) : String :=
  String.mk (s.data.map Char.toLower)

/-- The normalized lemma of check_anti_repetition:
(t.get("lemma") or t.get("text") or "").strip().lower(). -/
def normLemma (t : Token) : String :=
  pyLower (pyStrip ((pyOr t.lemma_ (pyOr t.text (some ""))).getD ""))

/-- Loop of AgreementChecker.check_anti_repetition: runLemma/runLen track the
current adjacent same-lemma adjective run, counts the per-lemma totals. -/
def antiRepAux (maxC maxS : Nat) :
    Option String → Nat → (String → Nat) → List Token → Bool
  | _, _, _, [] => true
  | runLemma, runLen, counts, t :: ts =>
    if !(t.pos == some "ADJ") then antiRepAux maxC maxS none 0 counts ts
    else
      let l := normLemma t
      let rn := if !(l == "") && some l == runLemma then runLen + 1 else 1
      if maxC < rn then false
      else if !(l == "") then
        let counts' := fun x => if x == l then counts l + 1 else counts x
        if maxS < counts' l then false
        else antiRepAux maxC maxS (some l) rn counts' ts
      else antiRepAux maxC maxS (some l) rn counts ts

/-- AgreementChecker.check_anti_repetition. -/
def check_anti_repetition (c : AgreementChecker) (tokens : List Token) : Bool :=
  let total := tokens.countP (fun t => t.pos == some "ADJ")
  if c.max_total_adjs < total then false
  else antiRepAux c.max_consecutive_same_adj c.max_same_adj_per_sentence
    none 0 (fun _ => 0) tokens

/-- AgreementChecker.validate: conjunction of the five checks in source
order, short-circuiting. -/
def validate (c : AgreementChecker) (tokens : List Token) : Bool :=
  check_syntax_template c tokens &&
    (check_anti_repetition c tokens &&
      (check_gender_agreement tokens &&
        (check_number_agreement tokens && check_subject_verb_agreement c tokens)))

/-! ### ConstrainedDecoder (src/constraints/decoder.py) -/

/-- The constraint loop of ConstrainedDecoder._check_constraints over the
analysis of the sequence; the decoder's agreement_checker is always
AgreementChecker() (defaultChecker). -/
def decoderLoop (tokens : List Token) : List String → Bool
  | [] => true
  | c :: cs =>
    if c == "gender_agreement" then
      if check_gender_agreement tokens then decoderLoop tokens cs else false
    else if c == "number_agreement" then
      if check_number_agreement tokens then decoderLoop tokens cs else false
    else if c == "subject_verb_agreement" then
      if check_subject_verb_agreement defaultChecker tokens then decoderLoop tokens cs else false
    else decoderLoop tokens cs

/-- ConstrainedDecoder._check_constraints: join the sequence with spaces,
analyze it, and apply each named constraint. -/
def decoder_check_constraints (analyze : String → List Token)
    (sequence : List String) (constraint_names : List String) : Bool :=
  let tokens := analyze (String.intercalate " " sequence)
  decoderLoop tokens constraint_names

/-- One candidate-collection pass of beam_search_with_constraints: every beam
entry extended by every vocabulary word, kept when the constraints pass on
the fresh analysis of the whole extended sequence. -/
def beamStepCandidates (analyze : String → List Token) (initial_scores : List Int)
    (vocabulary : List String) (constraints : List String)
    (beams : List (List String × Int)) : List (List String × Int) :=
  (beams.map (fun sc =>
    vocabulary.enum.filterMap (fun iw =>
      let new_sequence := sc.1 ++ [iw.2]
      let new_score := sc.2 + initial_scores.getD iw.1 0
      if decoder_check_constraints analyze new_sequence constraints then
        some (new_sequence, new_score)
      else none))).flatten

/-- Stable descending sort by score: candidates.sort(key=score, reverse=True). -/
def sortByScoreDesc (l : List (List String × Int)) : List (List String × Int) :=
  l.insertionSort (fun a b => b.2 ≤ a.2)

/-- The step loop of beam_search_with_constraints: at each of the up to
max_length steps, collect candidates, sort descending, keep the top
beam_width, and stop early when no candidate survives. -/
def beamLoop (analyze : String → List Token) (initial_scores : List Int)
    (vocabulary : List String) (beam_width : Nat) (constraints : List String) :
    Nat → List (List String × Int) → List (List String × Int)
  | 0, beams => beams
  | steps + 1, beams =>
    let candidates := beamStepCandidates analyze initial_scores vocabulary constraints beams
    let newBeams := (sortByScoreDesc candidates).take beam_width
    if newBeams.isEmpty then newBeams
    else beamLoop analyze initial_scores vocabulary beam_width constraints steps newBeams

/-- ConstrainedDecoder.beam_search_with_constraints.  A falsy constraints
argument (Python None or the empty list) is replaced by the default
constraint set; the beam starts as [([], 0)]. -/
def beam_search_with_constraints (analyze : String → List Token)
    (initial_scores : List Int) (vocabulary : List String)
    (beam_width : Nat) (max_length : Nat) (constraints : List String) :
    List (List String × Int) :=
  let constraints :=
    if constraints.isEmpty then ["gender_agreement", "number_agreement"] else constraints
  beamLoop analyze initial_scores vocabulary beam_width constraints max_length [([], 0)]

/-! ### MorphosyntacticTemplate (src/morphological/templates.py) -/

/-- The incremental-constraint loop of MorphosyntacticTemplate._should_prune
(the checks used there read no configuration fields). -/
def should_prune (tokens : List Token) : List String → Bool
  | [] => false
  | c :: cs =>
    if !(c == "gender_agreement" || c == "number_agreement") then
      should_prune tokens cs
    else if c == "gender_agreement" then
      if check_gender_agreement tokens then should_prune tokens cs else true
    else
      if check_number_agreement tokens then should_prune tokens cs else true

/-- The constraint loop of MorphosyntacticTemplate._check_constraints; an
unknown constraint name is explicitly skipped. -/
def templateLoop (c : AgreementChecker) (tokens : List Token) : List String → Bool
  | [] => true
  | k :: ks =>
    if k == "gender_agreement" then
      if check_gender_agreement tokens then templateLoop c tokens ks else false
    else if k == "number_agreement" then
      if check_number_agreement tokens then templateLoop c tokens ks else false
    else if k == "subject_verb_agreement" then
      if check_subject_verb_agreement c tokens then templateLoop c tokens ks else false
    else templateLoop c tokens ks

/-- MorphosyntacticTemplate._check_constraints: every configured constraint,
then check_anti_repetition. -/
def template_check_constraints (c : AgreementChecker) (tokens : List Token)
    (constraints : List String) : Bool :=
  templateLoop c tokens constraints && check_anti_repetition c tokens

/-- The per-call parameters of
MorphosyntacticTemplate._generate_candidate_sequences: the lexicon, the
constraint set of the template, the precomputed per-word analyses
(pos -> word -> analysis, none when missing) and the repetition bound. -/
structure GenParams where
  lexical_items : List (String × List String)
  constraints : List String
  lexical_analyses : String → String → Option (List Token)
  max_repetitions : Nat := 3

/-- lexical_items.get(pos, []). -/
def lookupWords (l : List (String × List String)) (pos : String) : List String :=
  match l with
  | [] => []
  | (k, ws) :: rest => if k == pos then ws else lookupWords rest pos

/-- token_spec.rstrip(...): drop every trailing question-mark or star. -/
def stripMarkers (s : String) : String :=
  ((s.data.reverse.dropWhile (fun ch => ch == '?' || ch == '*')).reverse).asString

/-- token_spec.endswith(c) for a single character. -/
def endsWithChar (s : String) (c : Char) : Bool :=
  match s.data.getLast? with
  | some c2 => c2 == c
  | none => false

/-- The backwards walk counting trailing buffer entries that are ADJ
positions carrying the same surface word as the candidate word. -/
def consecutiveIdentical (words posSeq : List String) (word : String) : Nat :=
  (((words.zip posSeq).reverse).takeWhile (fun wp => wp.2 == "ADJ" && wp.1 == word)).length

/-- The three parallel working buffers of the backtracking generator plus the
accumulated candidate list. -/
structure GenState where
  words : List String
  tokens : List Token
  posSeq : List String
  candidates : List (List String)
deriving Repr

/-!
The inner backtracking procedure of
MorphosyntacticTemplate._generate_candidate_sequences, in state-passing
form.  The Python pos_index into the pattern becomes the remaining pattern
suffix; the mutable buffer triple and the candidates list become GenState.
backtrack handles the end-of-pattern emission, the word loop and the
zero-consume branch for optional/starred slots; wordsLoop is the for loop
over the available words, with push, adjective caps, incremental prune, the
two recursive calls and the pop that removes exactly what was pushed.
-/

mutual

def backtrack (P : GenParams) :
    List String → Nat → (String → Nat) → GenState → GenState
  | [], _, _, st =>
    if st.words.isEmpty then st
    else { st with candidates := st.candidates ++ [st.words] }
  | spec :: rest, repeat_count, adj_counts, st =>
    let st1 := wordsLoop P spec rest repeat_count adj_counts
      (lookupWords P.lexical_items (stripMarkers spec)) st
    if endsWithChar spec '?' || endsWithChar spec '*' then
      backtrack P rest 0 (fun _ => 0) st1
    else st1
termination_by l repeat_count adj_counts st =>
  (l.length, P.max_repetitions + 1 - repeat_count, 2, 0)

def wordsLoop (P : GenParams) (spec : String) (rest : List String)
    (repeat_count : Nat) (adj_counts : String → Nat) :
    List String → GenState → GenState
  | [], st => st
  | word :: ws, st =>
    wordsLoop P spec rest repeat_count adj_counts ws
      (processWord P spec rest repeat_count adj_counts word st)
termination_by ws st =>
  (rest.length + 1, P.max_repetitions + 1 - repeat_count, 1, ws.length + 1)

def processWord (P : GenParams) (spec : String) (rest : List String)
    (repeat_count : Nat) (adj_counts : String → Nat) (word : String)
    (st : GenState) : GenState :=
  let pos := stripMarkers spec
  match P.lexical_analyses pos word with
  | none => st
  | some wt =>
    if wt.isEmpty then st
    else if pos == "ADJ" &&
        (2 ≤ adj_counts word || 2 ≤ consecutiveIdentical st.words st.posSeq word) then st
    else
      let st1 : GenState :=
        { st with
          words := st.words ++ [word]
          tokens := st.tokens ++ wt
          posSeq := st.posSeq ++ [pos] }
      let updated := if pos == "ADJ" then
          (fun x => if x == word then adj_counts word + 1 else adj_counts x)
        else adj_counts
      let stB :=
        if should_prune st1.tokens P.constraints then st1
        else
          let stA :=
            if h : endsWithChar spec '*' ∧ repeat_count + 1 ≤ P.max_repetitions then
              backtrack P (spec :: rest) (repeat_count + 1) updated st1
            else st1
          backtrack P rest 0 updated stA
      { stB with
        words := stB.words.dropLast
        tokens := stB.tokens.take (stB.tokens.length - wt.length)
        posSeq := stB.posSeq.dropLast }
termination_by (rest.length + 1, P.max_repetitions + 1 - repeat_count, 0, 0)

end

/-- MorphosyntacticTemplate._generate_candidate_sequences: run backtrack from
empty buffers and return the collected candidates. -/
def generate_candidate_sequences (P : GenParams) (pattern : List String) :
    List (List String) :=
  (backtrack P pattern 0 (fun _ => 0) ⟨[], [], [], []⟩).candidates

/-! ### Specification-side characterizations

The following definitions restate, in the words of the specification, the
properties the claims assert about the functions above.  They are compared
with the source-derived functions by the theorems further down.
-/

/-- The relevant gender values of a sequence in scan order: one entry per
token whose part of speech is in the gender-relevant set and which carries
the feature. -/
def genderVals (tokens : List Token) : List String :=
  tokens.filterMap (fun t =>
    if posIn t.pos POS_GENDER && truthy t.features.gender then t.features.gender else none)

/-- First-token-wins: the list is empty or every element equals its first
element. -/
def firstWins : List String → Bool
  | [] => true
  | v :: vs => vs.all (fun x => x == v)

/-- The relevant non-verb number values of a sequence in scan order. -/
def numVals (tokens : List Token) : List String :=
  tokens.filterMap (fun t =>
    if posIn t.pos POS_NUMBER && !(t.pos == some "VERB") && truthy t.features.number then
      t.features.number
    else none)

/-- Agreement of a value list with an optional already-established canonical
value: with none the first element is canonical, otherwise all elements must
equal the given value. -/
def numBaseAll : Option String → List String → Bool
  | none, l => firstWins l
  | some v, l => l.all (fun x => x == v)

/-- Every verb of the remaining list (whose head token sits at position i of
the whole sequence T) that declares a number agrees with all of its mapped
subjects. -/
def verbsOkFrom (T : List Token) : Nat → List Token → Bool
  | _, [] => true
  | i, t :: ts =>
    (if t.pos == some "VERB" && truthy t.features.number then
      verbSubjOk T i t.features.number
    else true) && verbsOkFrom T (i + 1) ts

/-- A possibly-absent feature value is declared: present and non-empty (the
propositional counterpart of truthy). -/
def declares (o : Option String) : Prop := o ≠ none ∧ o ≠ some ""

/-- The person value attributed to a subject token: its declared person, or
the configured default when the feature is absent. -/
def subjPerson (c : AgreementChecker) (s : Token) : String :=
  s.features.person.getD c.default_subj_person

/-- A subject-verb violation in the words of the claim: some verb token has
a mapped subject such that either both declare a number and the numbers
differ, or the verb declares a person different from the person attributed
to the subject. -/
def svViolation (c : AgreementChecker) (tokens : List Token) : Prop :=
  ∃ vi < tokens.length,
    (tokens.getD vi dfltToken).pos = some "VERB" ∧
    ∃ si ∈ subjectsOfHead tokens (Int.ofNat vi),
      (declares (tokens.getD si dfltToken).features.number ∧
        declares (tokens.getD vi dfltToken).features.number ∧
        (tokens.getD si dfltToken).features.number ≠ (tokens.getD vi dfltToken).features.number) ∨
      (declares (tokens.getD vi dfltToken).features.person ∧
        (tokens.getD vi dfltToken).features.person ≠ some (subjPerson c (tokens.getD si dfltToken)))

/-- The lengths of the maximal adjacent adjective runs as tracked by the
anti-repetition loop: cur/n are the lemma and length of the currently open
run, which is closed by the end of the list, by a non-adjective token, or
by an adjective with a different or empty normalized lemma.  Runs chain
only on equal non-empty lemmas, so every adjective still opens a run (of
length at least 1), but an empty-lemma adjective is always a maximal run of
length exactly 1. -/
def runsAux : Option String → Nat → List Token → List Nat
  | _, n, [] => if 0 < n then [n] else []
  | cur, n, t :: ts =>
    if !(t.pos == some "ADJ") then (if 0 < n then [n] else []) ++ runsAux none 0 ts
    else
      let l := normLemma t
      if !(l == "") && some l == cur then runsAux cur (n + 1) ts
      else (if 0 < n then [n] else []) ++ runsAux (some l) 1 ts

/-- The maximal adjacent adjective run lengths of a sequence (runs chain
only on equal non-empty normalized lemmas). -/
def adjRunLens (tokens : List Token) : List Nat := runsAux none 0 tokens

/-- Like runsAux but chaining runs on the normalized lemma alone, with no
reservation about empty lemmas: this is the run notion the claim literally
describes. -/
def claimRunsAux : Option String → Nat → List Token → List Nat
  | _, n, [] => if 0 < n then [n] else []
  | cur, n, t :: ts =>
    if !(t.pos == some "ADJ") then (if 0 < n then [n] else []) ++ claimRunsAux none 0 ts
    else
      let l := normLemma t
      if some l == cur then claimRunsAux cur (n + 1) ts
      else (if 0 < n then [n] else []) ++ claimRunsAux (some l) 1 ts

/-- Maximal run lengths under the claim's literal run notion. -/
def claimRunLens (tokens : List Token) : List Nat := claimRunsAux none 0 tokens

/-- The number of adjective tokens of the sequence whose normalized lemma is
l. -/
def adjLemmaCount (tokens : List Token) (l : String) : Nat :=
  tokens.countP (fun t => t.pos == some "ADJ" && normLemma t == l)

/-- The run-cap violation of the anti-repetition loop, from an arbitrary
open-run state: scanning the remaining tokens pushes the consecutive
counter above the cap at some point. -/
def runViolFrom (maxC : Nat) : Option String → Nat → List Token → Bool
  | _, _, [] => false
  | rl, n, t :: ts =>
    if !(t.pos == some "ADJ") then runViolFrom maxC none 0 ts
    else
      let l := normLemma t
      let rn := if !(l == "") && some l == rl then n + 1 else 1
      if maxC < rn then true else runViolFrom maxC (some l) rn ts

/-- The per-sentence count violation of the anti-repetition loop, from an
arbitrary accumulated count state: scanning the remaining tokens pushes some
non-empty lemma count above the cap at some point. -/
def countViolFrom (maxS : Nat) : (String → Nat) → List Token → Bool
  | _, [] => false
  | counts, t :: ts =>
    if !(t.pos == some "ADJ") then countViolFrom maxS counts ts
    else
      let l := normLemma t
      if !(l == "") then
        let counts' := fun x => if x == l then counts l + 1 else counts x
        if maxS < counts' l then true else countViolFrom maxS counts' ts
      else countViolFrom maxS counts ts

/-- Tokens used by the concrete test cases of the claims: a bare tag. -/
def tokTag (pos : String) : Token :=
  ⟨none, none, some pos, none, none, ⟨none, none, none⟩⟩

/-- A tagged token carrying a gender feature. -/
def tokGender (pos g : String) : Token :=
  ⟨none, none, some pos, none, none, ⟨some g, none, none⟩⟩

/-- A tagged token carrying a number feature. -/
def tokNumber (pos n : String) : Token :=
  ⟨none, none, some pos, none, none, ⟨none, some n, none⟩⟩

/-- An adjective token with the given surface text and lemma. -/
def tokAdj (s : String) : Token :=
  ⟨some s, some s, some "ADJ", none, none, ⟨none, none, none⟩⟩

/-- An adjective token with no surface text and no lemma (normalized lemma
empty). -/
def tokAdjBare : Token :=
  ⟨none, none, some "ADJ", none, none, ⟨none, none, none⟩⟩

/-- A subject noun: plural, nsubj, governed by the token at position 1. -/
def tokSubjNoun : Token :=
  ⟨none, none, some "NOUN", some "nsubj", some 1, ⟨none, some "plur", none⟩⟩

/-- A subject noun whose head is the out-of-range position -1. -/
def tokSubjNounBadHead : Token :=
  ⟨none, none, some "NOUN", some "nsubj", some (-1), ⟨none, some "plur", none⟩⟩

/-- A singular verb. -/
def tokVerbSing : Token :=
  ⟨none, none, some "VERB", none, none, ⟨none, some "sing", none⟩⟩

/-- The checker configuration of the template-boundary test: pattern
DET? ADJ(0,1) NOUN ADJ(0,2) with determiner and noun required. -/
def cfgC2 : AgreementChecker :=
  { pre_adj_max := 1, post_adj_max := 2, require_det := true, require_noun := true }

/-- Replacing a token's head value. -/
def setHead (t : Token) (h : Option Int) : Token := { t with head := h }

/-- The sequence with the head value of the token at position i replaced by
x (used to state that an unmatched head is ignored: erasing it changes no
check outcome). -/
def setHeadAt (tokens : List Token) (i : Nat) (x : Option Int) : List Token :=
  tokens.set i (setHead (tokens.getD i dfltToken) x)

/-! ### Theorems -/

/-- C2: check_syntax_template rejects every empty sequence; with preAdjMax=1,
postAdjMax=2, requireDet=true, requireNoun=true the tag sequence
DET ADJ ADJ NOUN fails, DET NOUN ADJ ADJ passes, and the single tag NOUN
passes exactly when requireDet is false. -/
theorem c2_template_boundary :
    (∀ c : AgreementChecker, check_syntax_template c [] = false) ∧
    check_syntax_template cfgC2
      [tokTag "DET", tokTag "ADJ", tokTag "ADJ", tokTag "NOUN"] = false ∧
    check_syntax_template cfgC2
      [tokTag "DET", tokTag "NOUN", tokTag "ADJ", tokTag "ADJ"] = true ∧
    (∀ rd : Bool,
      check_syntax_template { cfgC2 with require_det := rd } [tokTag "NOUN"] = !rd) := by
  refine ⟨fun c => rfl, by decide, by decide, fun rd => ?_⟩
  cases rd <;> decide

/-- The constraint loop of the generator's post-filter skips an unrecognized
constraint name wherever it occurs. -/
theorem templateLoop_unknown (c : AgreementChecker) (tokens : List Token) (u : String)
    (h1 : u ≠ "gender_agreement") (h2 : u ≠ "number_agreement")
    (h3 : u ≠ "subject_verb_agreement") :
    ∀ pre post, templateLoop c tokens (pre ++ u :: post) = templateLoop c tokens (pre ++ post) := by
  have e1 : (u == "gender_agreement") = false := beq_eq_false_iff_ne.mpr h1
  have e2 : (u == "number_agreement") = false := beq_eq_false_iff_ne.mpr h2
  have e3 : (u == "subject_verb_agreement") = false := beq_eq_false_iff_ne.mpr h3
  intro pre
  induction pre with
  | nil => intro post; simp [templateLoop, e1, e2, e3]
  | cons k pre ih =>
    intro post
    simp only [List.cons_append, templateLoop]
    split
    · split
      · exact ih post
      · rfl
    · split
      · split
        · exact ih post
        · rfl
      · split
        · split
          · exact ih post
          · rfl
        · exact ih post

/-- The decoder's constraint loop skips an unrecognized constraint name
wherever it occurs. -/
theorem decoderLoop_unknown (tokens : List Token) (u : String)
    (h1 : u ≠ "gender_agreement") (h2 : u ≠ "number_agreement")
    (h3 : u ≠ "subject_verb_agreement") :
    ∀ pre post, decoderLoop tokens (pre ++ u :: post) = decoderLoop tokens (pre ++ post) := by
  have e1 : (u == "gender_agreement") = false := beq_eq_false_iff_ne.mpr h1
  have e2 : (u == "number_agreement") = false := beq_eq_false_iff_ne.mpr h2
  have e3 : (u == "subject_verb_agreement") = false := beq_eq_false_iff_ne.mpr h3
  intro pre
  induction pre with
  | nil => intro post; simp [decoderLoop, e1, e2, e3]
  | cons k pre ih =>
    intro post
    simp only [List.cons_append, decoderLoop]
    split
    · split
      · exact ih post
      · rfl
    · split
      · split
        · exact ih post
        · rfl
      · split
        · split
          · exact ih post
          · rfl
        · exact ih post

/-- C8: inserting a constraint name outside the recognized set anywhere into
the list changes neither the generator's post-filter check nor the decoder's
check: an unrecognized name is vacuously satisfied. -/
theorem c8_unknown_constraint_vacuous
    (c : AgreementChecker) (tokens : List Token) (analyze : String → List Token)
    (sequence pre post : List String) (u : String)
    (h1 : u ≠ "gender_agreement") (h2 : u ≠ "number_agreement")
    (h3 : u ≠ "subject_verb_agreement") :
    template_check_constraints c tokens (pre ++ u :: post) =
      template_check_constraints c tokens (pre ++ post) ∧
    decoder_check_constraints analyze sequence (pre ++ u :: post) =
      decoder_check_constraints analyze sequence (pre ++ post) := by
  constructor
  · unfold template_check_constraints
    rw [templateLoop_unknown c tokens u h1 h2 h3 pre post]
  · unfold decoder_check_constraints
    rw [decoderLoop_unknown _ u h1 h2 h3 pre post]

/-- Witness for C8 at a concrete unknown name, token list and sequence. -/
theorem c8_unknown_constraint_vacuous_witness :
    template_check_constraints defaultChecker [tokGender "DET" "fem"]
        ["frobnicate", "gender_agreement"] =
      template_check_constraints defaultChecker [tokGender "DET" "fem"]
        ["gender_agreement"] ∧
    decoder_check_constraints (fun _ => [tokGender "DET" "fem"]) ["le"]
        ["frobnicate", "gender_agreement"] =
      decoder_check_constraints (fun _ => [tokGender "DET" "fem"]) ["le"]
        ["gender_agreement"] := by
  have h := c8_unknown_constraint_vacuous defaultChecker [tokGender "DET" "fem"]
    (fun _ => [tokGender "DET" "fem"]) ["le"] [] ["gender_agreement"] "frobnicate"
    (by decide) (by decide) (by decide)
  simpa using h

/-- With an empty vocabulary a step collects no candidate. -/
theorem beamStepCandidates_nil_vocab (analyze : String → List Token)
    (scores : List Int) (cs : List String) (beams : List (List String × Int)) :
    beamStepCandidates analyze scores [] cs beams = [] := by
  induction beams with
  | nil => rfl
  | cons b bs ih => simpa [beamStepCandidates] using ih

/-- C9 counterexample: with max_length = 0 the step loop never runs, so beam
search over an empty vocabulary returns the initial beam [([], 0)], which is
not an empty beam. -/
theorem c9_counterexample_max_length_zero :
    beam_search_with_constraints (fun _ => []) [] [] 2 0 [] = [([], 0)] ∧
    beam_search_with_constraints (fun _ => []) [] [] 2 0 [] ≠ [] := by
  exact ⟨rfl, by decide⟩

/-- C9 (amended): every rule check on the empty sequence is a plain boolean
with validate returning false because the template check fails, and beam
search over an empty vocabulary returns an empty beam whenever at least one
step runs (max_length at least 1). -/
theorem c9_empty_degenerate_inputs :
    (∀ c : AgreementChecker, check_syntax_template c [] = false) ∧
    (∀ c : AgreementChecker, validate c [] = false) ∧
    (∀ (analyze : String → List Token) (scores : List Int) (bw ml : Nat)
      (cs : List String), 0 < ml →
      beam_search_with_constraints analyze scores [] bw ml cs = []) := by
  refine ⟨fun c => rfl, fun c => rfl, ?_⟩
  intro analyze scores bw ml cs hml
  obtain ⟨k, rfl⟩ : ∃ k, ml = k + 1 := ⟨ml - 1, by omega⟩
  unfold beam_search_with_constraints
  simp only [beamLoop, beamStepCandidates_nil_vocab]
  simp [sortByScoreDesc, List.insertionSort]

/-- Witness for C9: the amended statement at a concrete positive
max_length. -/
theorem c9_empty_degenerate_inputs_witness :
    validate defaultChecker [] = false ∧
    beam_search_with_constraints (fun _ => []) [] [] 2 3 [] = [] := by
  refine ⟨c9_empty_degenerate_inputs.2.1 defaultChecker, ?_⟩
  exact c9_empty_degenerate_inputs.2.2 (fun _ => []) [] 2 3 [] (by decide)

/-- The gender scan is monotone in failure: once a prefix fails from some
running state, every extension of the prefix fails from that state. -/
theorem genderAux_append_false :
    ∀ (ts : List Token) (g : Option String) (ext : List Token),
      genderAux g ts = false → genderAux g (ts ++ ext) = false := by
  intro ts
  induction ts with
  | nil => intro g ext h; simp [genderAux] at h
  | cons t ts ih =>
    intro g ext h
    cases g with
    | none =>
      simp only [List.cons_append, genderAux] at h ⊢
      by_cases hc : (posIn t.pos POS_GENDER && truthy t.features.gender) = true
      · rw [if_pos hc] at h ⊢; exact ih _ ext h
      · rw [if_neg hc] at h ⊢; exact ih _ ext h
    | some gv =>
      simp only [List.cons_append, genderAux] at h ⊢
      by_cases hc : (posIn t.pos POS_GENDER && truthy t.features.gender) = true
      · rw [if_pos hc] at h ⊢
        by_cases hv : (t.features.gender == some gv) = true
        · rw [if_pos hv] at h ⊢; exact ih _ ext h
        · rw [if_neg hv]
      · rw [if_neg hc] at h ⊢; exact ih _ ext h

/-- Membership in the subject map: an in-range position whose token carries
a subject dependency label and the head h. -/
theorem mem_subjectsOfHead {T : List Token} {h : Int} {i : Nat} :
    i ∈ subjectsOfHead T h ↔
      i < T.length ∧
        (posIn (T.getD i dfltToken).dep DEP_SUBJ
          && (T.getD i dfltToken).head == some h) = true := by
  simp [subjectsOfHead, List.mem_filter, List.mem_range]

/-- Appending tokens preserves subject-map membership of the original
positions. -/
theorem subjectsOfHead_append_mem (M : List Token) {T : List Token} {h : Int} {i : Nat}
    (hi : i ∈ subjectsOfHead T h) : i ∈ subjectsOfHead (T ++ M) h := by
  rw [mem_subjectsOfHead] at hi ⊢
  obtain ⟨hlen, hcond⟩ := hi
  rw [List.getD_append _ _ _ _ hlen]
  exact ⟨by simpa using Nat.lt_of_lt_of_le hlen (by simp), hcond⟩

/-- If a verb's subjects all agree in the extended sequence they already all
agreed in the original sequence. -/
theorem verbSubjOk_of_append {T M : List Token} {i : Nat} {n : Option String}
    (hall : verbSubjOk (T ++ M) i n = true) : verbSubjOk T i n = true := by
  simp only [verbSubjOk, List.all_eq_true] at hall ⊢
  intro si hsi
  have hmem := subjectsOfHead_append_mem M hsi
  have hlen : si < T.length := (mem_subjectsOfHead.mp hsi).1
  have hv := hall si hmem
  rwa [List.getD_append _ _ _ _ hlen] at hv

/-- The number scan is monotone in failure: if the scan of a prefix (as part
of sequence T) fails from some state, the scan of any extension of the
prefix (as part of the extended sequence T ++ M) fails from that state. -/
theorem numberAux_append_false (T M : List Token) :
    ∀ (rest ext : List Token) (i : Nat) (b : Option String),
      numberAux T i b rest = false → numberAux (T ++ M) i b (rest ++ ext) = false := by
  intro rest
  induction rest with
  | nil => intro ext i b h; simp [numberAux] at h
  | cons t ts ih =>
    intro ext i b h
    cases b with
    | none =>
      simp only [List.cons_append, numberAux] at h ⊢
      by_cases h1 : (!(posIn t.pos POS_NUMBER)) = true
      · rw [if_pos h1] at h ⊢; exact ih _ _ _ h
      · rw [if_neg h1] at h ⊢
        by_cases h2 : (!(truthy t.features.number)) = true
        · rw [if_pos h2] at h ⊢; exact ih _ _ _ h
        · rw [if_neg h2] at h ⊢
          by_cases h3 : (t.pos == some "VERB") = true
          · rw [if_pos h3] at h ⊢
            by_cases h4 : verbSubjOk (T ++ M) i t.features.number = true
            · rw [if_pos h4]
              rw [if_pos (verbSubjOk_of_append h4)] at h
              exact ih _ _ _ h
            · rw [if_neg h4]
          · rw [if_neg h3] at h ⊢
            exact ih _ _ _ h
    | some bv =>
      simp only [List.cons_append, numberAux] at h ⊢
      by_cases h1 : (!(posIn t.pos POS_NUMBER)) = true
      · rw [if_pos h1] at h ⊢; exact ih _ _ _ h
      · rw [if_neg h1] at h ⊢
        by_cases h2 : (!(truthy t.features.number)) = true
        · rw [if_pos h2] at h ⊢; exact ih _ _ _ h
        · rw [if_neg h2] at h ⊢
          by_cases h3 : (t.pos == some "VERB") = true
          · rw [if_pos h3] at h ⊢
            by_cases h4 : verbSubjOk (T ++ M) i t.features.number = true
            · rw [if_pos h4]
              rw [if_pos (verbSubjOk_of_append h4)] at h
              exact ih _ _ _ h
            · rw [if_neg h4]
          · rw [if_neg h3] at h ⊢
            by_cases h4 : (t.features.number == some bv) = true
            · rw [if_pos h4] at h ⊢; exact ih _ _ _ h
            · rw [if_neg h4]

/-- Failure of check_gender_agreement is preserved under appending tokens. -/
theorem check_gender_agreement_append_false {toks more : List Token}
    (h : check_gender_agreement toks = false) :
    check_gender_agreement (toks ++ more) = false :=
  genderAux_append_false toks none more h

/-- Failure of check_number_agreement is preserved under appending tokens. -/
theorem check_number_agreement_append_false {toks more : List Token}
    (h : check_number_agreement toks = false) :
    check_number_agreement (toks ++ more) = false :=
  numberAux_append_false toks more toks more 0 none h

/-- If the incremental prune fires on a prefix then the post-filter
constraint loop fails on every extension of that prefix. -/
theorem templateLoop_false_of_should_prune (c : AgreementChecker)
    (toks more : List Token) :
    ∀ cs : List String, should_prune toks cs = true →
      templateLoop c (toks ++ more) cs = false := by
  intro cs
  induction cs with
  | nil => intro h; simp [should_prune] at h
  | cons k ks ih =>
    intro h
    simp only [should_prune] at h
    simp only [templateLoop]
    by_cases hg : (k == "gender_agreement") = true
    · rw [if_pos hg]
      have hng : (!(k == "gender_agreement" || k == "number_agreement")) = false := by
        simp [hg]
      rw [hng] at h
      simp only [Bool.false_eq_true, if_false, if_pos hg] at h
      by_cases hcg : check_gender_agreement toks = true
      · rw [if_pos hcg] at h
        rw [ih h]
        split <;> rfl
      · have : check_gender_agreement (toks ++ more) = false :=
          check_gender_agreement_append_false (eq_false_of_ne_true hcg)
        rw [this]
        rfl
    · rw [if_neg hg]
      by_cases hn : (k == "number_agreement") = true
      · rw [if_pos hn]
        have hng : (!(k == "gender_agreement" || k == "number_agreement")) = false := by
          simp [hn]
        rw [hng] at h
        simp only [Bool.false_eq_true, if_false, if_neg hg, if_pos hn] at h
        by_cases hcn : check_number_agreement toks = true
        · rw [if_pos hcn] at h
          rw [ih h]
          split <;> rfl
        · have : check_number_agreement (toks ++ more) = false :=
            check_number_agreement_append_false (eq_false_of_ne_true hcn)
          rw [this]
          rfl
      · rw [if_neg hn]
        have hng : (!(k == "gender_agreement" || k == "number_agreement")) = true := by
          simp [Bool.not_eq_true] at hg hn
          simp [hg, hn]
        rw [if_pos hng] at h
        have hrec := ih h
        split
        · rw [hrec]
          split <;> rfl
        · exact hrec

/-- C1: monotonic pruning correctness.  Failure of the incremental gender or
number check on a partial buffer persists on every extension, and whenever
_should_prune fires on the buffer, the full post-filter _check_constraints
rejects every completed extension of it: pruning never discards a candidate
whose completion would have passed. -/
theorem c1_pruning_monotone (c : AgreementChecker) (toks more : List Token)
    (cs : List String) :
    (check_gender_agreement toks = false →
      check_gender_agreement (toks ++ more) = false) ∧
    (check_number_agreement toks = false →
      check_number_agreement (toks ++ more) = false) ∧
    (should_prune toks cs = true →
      template_check_constraints c (toks ++ more) cs = false) := by
  refine ⟨fun h => check_gender_agreement_append_false h,
    fun h => check_number_agreement_append_false h, fun h => ?_⟩
  unfold template_check_constraints
  rw [templateLoop_false_of_should_prune c toks more cs h]
  rfl

/-- Witness for C1: a buffer with conflicting genders and numbers is pruned
under the gender constraint, and the full check rejects its extension. -/
theorem c1_pruning_monotone_witness :
    check_gender_agreement
      [⟨none, none, some "DET", none, none, ⟨some "fem", some "sing", none⟩⟩,
       ⟨none, none, some "NOUN", none, none, ⟨some "masc", some "plur", none⟩⟩] = false ∧
    check_number_agreement
      [⟨none, none, some "DET", none, none, ⟨some "fem", some "sing", none⟩⟩,
       ⟨none, none, some "NOUN", none, none, ⟨some "masc", some "plur", none⟩⟩] = false ∧
    should_prune
      [⟨none, none, some "DET", none, none, ⟨some "fem", some "sing", none⟩⟩,
       ⟨none, none, some "NOUN", none, none, ⟨some "masc", some "plur", none⟩⟩]
      ["gender_agreement"] = true ∧
    check_gender_agreement
      ([⟨none, none, some "DET", none, none, ⟨some "fem", some "sing", none⟩⟩,
        ⟨none, none, some "NOUN", none, none, ⟨some "masc", some "plur", none⟩⟩]
        ++ [tokTag "ADJ"]) = false ∧
    check_number_agreement
      ([⟨none, none, some "DET", none, none, ⟨some "fem", some "sing", none⟩⟩,
        ⟨none, none, some "NOUN", none, none, ⟨some "masc", some "plur", none⟩⟩]
        ++ [tokTag "ADJ"]) = false ∧
    template_check_constraints defaultChecker
      ([⟨none, none, some "DET", none, none, ⟨some "fem", some "sing", none⟩⟩,
        ⟨none, none, some "NOUN", none, none, ⟨some "masc", some "plur", none⟩⟩]
        ++ [tokTag "ADJ"]) ["gender_agreement"] = false := by
  obtain ⟨hg, hn, hp⟩ := c1_pruning_monotone defaultChecker
    [⟨none, none, some "DET", none, none, ⟨some "fem", some "sing", none⟩⟩,
     ⟨none, none, some "NOUN", none, none, ⟨some "masc", some "plur", none⟩⟩]
    [tokTag "ADJ"] ["gender_agreement"]
  exact ⟨by decide, by decide, by decide, hg (by decide), hn (by decide), hp (by decide)⟩

/-- A tag equal to VERB is in the number-relevant set. -/
theorem posIn_POS_NUMBER_of_verb {p : Option String}
    (h : (p == some "VERB") = true) : posIn p POS_NUMBER = true := by
  have hp : p = some "VERB" := by simpa using h
  subst hp
  decide

/-- From an established canonical gender, the scan accepts exactly when
every later relevant declared gender value equals it. -/
theorem genderAux_some_eq (g : String) :
    ∀ ts : List Token, genderAux (some g) ts = (genderVals ts).all (fun x => x == g) := by
  intro ts
  induction ts with
  | nil => simp [genderAux, genderVals]
  | cons t ts ih =>
    simp only [genderAux]
    by_cases hc : (posIn t.pos POS_GENDER && truthy t.features.gender) = true
    · rw [if_pos hc]
      have ht : truthy t.features.gender = true := ((Bool.and_eq_true _ _).mp hc).2
      cases hg : t.features.gender with
      | none => rw [hg] at ht; simp [truthy] at ht
      | some s =>
        have hv : genderVals (t :: ts) = s :: genderVals ts := by
          unfold genderVals
          exact List.filterMap_cons_some (by rw [if_pos hc, hg])
        rw [hv]
        simp only [List.all_cons]
        by_cases hsg : s = g
        · subst hsg
          simp only [beq_self_eq_true, if_pos, Bool.true_and]
          exact ih
        · have h1 : (some s == some g) = false := by simpa using hsg
          have h2 : (s == g) = false := by simpa using hsg
          rw [h1, h2]
          simp
    · rw [if_neg hc]
      have hv : genderVals (t :: ts) = genderVals ts := by
        unfold genderVals
        exact List.filterMap_cons_none (if_neg hc)
      rw [hv]
      exact ih

/-- The gender check is first-token-wins over the relevant declared gender
values. -/
theorem check_gender_agreement_eq_firstWins (tokens : List Token) :
    check_gender_agreement tokens = firstWins (genderVals tokens) := by
  unfold check_gender_agreement
  induction tokens with
  | nil => simp [genderAux, genderVals, firstWins]
  | cons t ts ih =>
    simp only [genderAux]
    by_cases hc : (posIn t.pos POS_GENDER && truthy t.features.gender) = true
    · rw [if_pos hc]
      have ht : truthy t.features.gender = true := ((Bool.and_eq_true _ _).mp hc).2
      cases hg : t.features.gender with
      | none => rw [hg] at ht; simp [truthy] at ht
      | some s =>
        have hv : genderVals (t :: ts) = s :: genderVals ts := by
          unfold genderVals
          exact List.filterMap_cons_some (by rw [if_pos hc, hg])
        rw [hv]
        simp only [firstWins]
        exact genderAux_some_eq s ts
    · rw [if_neg hc]
      have hv : genderVals (t :: ts) = genderVals ts := by
        unfold genderVals
        exact List.filterMap_cons_none (if_neg hc)
      rw [hv]
      exact ih

/-- The number scan decomposes into the verb-subject conditions and the
first-token-wins condition on non-verb declared number values. -/
theorem numberAux_eq_decomposition (T : List Token) :
    ∀ (rest : List Token) (i : Nat) (b : Option String),
      numberAux T i b rest = (verbsOkFrom T i rest && numBaseAll b (numVals rest)) := by
  intro rest
  induction rest with
  | nil => intro i b; cases b <;> simp [numberAux, verbsOkFrom, numVals, numBaseAll, firstWins]
  | cons t ts ih =>
    intro i b
    by_cases h1 : (!(posIn t.pos POS_NUMBER)) = true
    · have hverb : (t.pos == some "VERB") = false := by
        by_contra hv
        have hv' := posIn_POS_NUMBER_of_verb (Bool.of_not_eq_false hv)
        simp [hv'] at h1
      have hnum : numVals (t :: ts) = numVals ts := by
        simp only [numVals, List.filterMap_cons]
        rw [if_neg]
        intro hcond
        have := ((Bool.and_eq_true _ _).mp ((Bool.and_eq_true _ _).mp hcond).1).1
        simp [this] at h1
      have hvf : verbsOkFrom T i (t :: ts) = verbsOkFrom T (i + 1) ts := by
        simp only [verbsOkFrom]
        rw [if_neg]
        · simp
        · intro hcond
          have := ((Bool.and_eq_true _ _).mp hcond).1
          rw [this] at hverb
          exact absurd hverb (by simp)
      cases b <;>
        (simp only [numberAux]; rw [if_pos h1, hnum, hvf]; exact ih i.succ _)
    · by_cases h2 : (!(truthy t.features.number)) = true
      · have hnum : numVals (t :: ts) = numVals ts := by
          simp only [numVals, List.filterMap_cons]
          rw [if_neg]
          intro hcond
          have := ((Bool.and_eq_true _ _).mp hcond).2
          simp [this] at h2
        have hvf : verbsOkFrom T i (t :: ts) = verbsOkFrom T (i + 1) ts := by
          simp only [verbsOkFrom]
          rw [if_neg]
          · simp
          · intro hcond
            have := ((Bool.and_eq_true _ _).mp hcond).2
            simp [this] at h2
        cases b <;>
          (simp only [numberAux]; rw [if_neg h1, if_pos h2, hnum, hvf]; exact ih i.succ _)
      · have htruthy : truthy t.features.number = true := by
          simpa using h2
        by_cases h3 : (t.pos == some "VERB") = true
        · have hnum : numVals (t :: ts) = numVals ts := by
            simp only [numVals, List.filterMap_cons]
            rw [if_neg]
            intro hcond
            have := ((Bool.and_eq_true _ _).mp ((Bool.and_eq_true _ _).mp hcond).1).2
            simp [h3] at this
          have hvf : verbsOkFrom T i (t :: ts) =
              (verbSubjOk T i t.features.number && verbsOkFrom T (i + 1) ts) := by
            simp only [verbsOkFrom]
            rw [if_pos (by simp [h3, htruthy])]
          cases b with
          | none =>
            simp only [numberAux]
            rw [if_neg h1, if_neg h2, if_pos h3, hnum, hvf]
            by_cases h4 : verbSubjOk T i t.features.number = true
            · rw [if_pos h4, h4, ih i.succ none]
              simp
            · rw [if_neg h4, eq_false_of_ne_true h4]
              simp
          | some bv =>
            simp only [numberAux]
            rw [if_neg h1, if_neg h2, if_pos h3, hnum, hvf]
            by_cases h4 : verbSubjOk T i t.features.number = true
            · rw [if_pos h4, h4, ih i.succ (some bv)]
              simp
            · rw [if_neg h4, eq_false_of_ne_true h4]
              simp
        · have hposin : posIn t.pos POS_NUMBER = true := by simpa using h1
          cases hn : t.features.number with
          | none => rw [hn] at htruthy; simp [truthy] at htruthy
          | some n =>
            have hnum : numVals (t :: ts) = n :: numVals ts := by
              simp only [numVals, List.filterMap_cons]
              rw [if_pos (by simp [hposin, h3, htruthy]), hn]
            have hvf : verbsOkFrom T i (t :: ts) = verbsOkFrom T (i + 1) ts := by
              simp only [verbsOkFrom]
              rw [if_neg (by simp [h3])]
              simp
            cases b with
            | none =>
              simp only [numberAux]
              rw [if_neg h1, if_neg h2, if_neg h3, hnum, hvf, hn, ih i.succ (some n)]
              simp only [numBaseAll, firstWins]
            | some bv =>
              simp only [numberAux]
              rw [if_neg h1, if_neg h2, if_neg h3, hnum, hvf, hn]
              simp only [numBaseAll, List.all_cons]
              by_cases h5 : n = bv
              · subst h5
                rw [if_pos (by simp), ih i.succ (some n)]
                simp [numBaseAll]
              · rw [if_neg (by simpa using h5)]
                have : (n == bv) = false := by simpa using h5
                simp [this]

/-- C3: the gender check is first-token-wins over the relevant declared
gender values; the number check decomposes into verb-vs-subject agreement
and first-token-wins over the relevant non-verb declared number values, so
a verb's number is never compared to the canonical value; and the two
concrete gender examples behave as stated. -/
theorem c3_first_token_wins :
    (∀ tokens : List Token,
      check_gender_agreement tokens = firstWins (genderVals tokens)) ∧
    (∀ tokens : List Token,
      check_number_agreement tokens
        = (verbsOkFrom tokens 0 tokens && firstWins (numVals tokens))) ∧
    check_gender_agreement [tokGender "DET" "fem", tokGender "NOUN" "masc"] = false ∧
    check_gender_agreement [tokGender "DET" "fem", tokGender "NOUN" "fem"] = true := by
  refine ⟨check_gender_agreement_eq_firstWins, fun tokens => ?_, by decide, by decide⟩
  unfold check_number_agreement
  rw [numberAux_eq_decomposition tokens tokens 0 none]
  rfl

/-- truthy as a proposition: the value is present and non-empty. -/
theorem truthy_iff_declares {o : Option String} : truthy o = true ↔ declares o := by
  cases o with
  | none => simp [truthy, declares]
  | some s =>
    simp only [truthy, declares, Bool.not_eq_true']
    constructor
    · intro h
      refine ⟨by simp, ?_⟩
      intro hs
      rw [Option.some.injEq] at hs
      subst hs
      simp at h
    · intro ⟨_, h2⟩
      simpa using fun hs => h2 (by rw [hs])

/-- The pairwise subject-verb test fails exactly at the violation described
by the claim. -/
theorem svPairOk_false_iff (c : AgreementChecker) (s v : Token) :
    svPairOk c s v = false ↔
      (declares s.features.number ∧ declares v.features.number ∧
        s.features.number ≠ v.features.number) ∨
      (declares v.features.person ∧
        v.features.person ≠ some (subjPerson c s)) := by
  have hsp : (match s.features.person with
      | none => c.default_subj_person
      | some p => p) = subjPerson c s := by
    unfold subjPerson
    cases s.features.person <;> rfl
  unfold svPairOk
  rw [hsp]
  simp only [Bool.and_eq_false_iff, Bool.not_eq_false', Bool.and_eq_true,
    Bool.not_eq_true', beq_eq_false_iff_ne, ne_eq, truthy_iff_declares]
  constructor
  · rintro (⟨⟨ha, hb⟩, hc⟩ | ⟨h1, h2⟩)
    · exact Or.inl ⟨ha, hb, hc⟩
    · exact Or.inr ⟨h1, fun he => h2 he.symm⟩
  · rintro (⟨ha, hb, hc⟩ | ⟨h1, h2⟩)
    · exact Or.inl ⟨⟨ha, hb⟩, hc⟩
    · exact Or.inr ⟨h1, fun he => h2 he.symm⟩

/-- The subject-verb scan fails exactly when some verb position in the
remaining list has a mapped subject failing the pairwise test. -/
theorem svAux_false_iff (c : AgreementChecker) (T : List Token) :
    ∀ (rest : List Token) (n : Nat),
      svAux c T n rest = false ↔
        ∃ k, k < rest.length ∧ (rest.getD k dfltToken).pos = some "VERB" ∧
          ∃ si ∈ subjectsOfHead T (Int.ofNat (n + k)),
            svPairOk c (T.getD si dfltToken) (rest.getD k dfltToken) = false := by
  intro rest
  induction rest with
  | nil => intro n; simp [svAux]
  | cons v ts ih =>
    intro n
    simp only [svAux]
    by_cases hv : (!(v.pos == some "VERB")) = true
    · rw [if_pos hv, ih (n + 1)]
      constructor
      · rintro ⟨k, hk, hpos, hsi⟩
        refine ⟨k + 1, by simpa using hk, by simpa using hpos, ?_⟩
        have harith : n + (k + 1) = n + 1 + k := by omega
        rw [harith]
        simpa using hsi
      · rintro ⟨k, hk, hpos, hsi⟩
        cases k with
        | zero =>
          exfalso
          simp only [List.getD_cons_zero] at hpos
          rw [hpos] at hv
          simp at hv
        | succ k =>
          refine ⟨k, by simpa using hk, by simpa using hpos, ?_⟩
          have harith : n + 1 + k = n + (k + 1) := by omega
          rw [harith]
          simpa using hsi
    · rw [if_neg hv]
      have hverb : v.pos = some "VERB" := by
        have hb : (v.pos == some "VERB") = true := by simpa using hv
        simpa using hb
      by_cases hall : ((subjectsOfHead T (Int.ofNat n)).all
          (fun si => svPairOk c (T.getD si dfltToken) v)) = true
      · rw [if_pos hall, ih (n + 1)]
        constructor
        · rintro ⟨k, hk, hpos, hsi⟩
          refine ⟨k + 1, by simpa using hk, by simpa using hpos, ?_⟩
          have harith : n + (k + 1) = n + 1 + k := by omega
          rw [harith]
          simpa using hsi
        · rintro ⟨k, hk, hpos, hsi⟩
          cases k with
          | zero =>
            exfalso
            simp only [Nat.add_zero, List.getD_cons_zero] at hsi
            obtain ⟨si, hmem, hfail⟩ := hsi
            have hok := (List.all_eq_true.mp hall) si hmem
            rw [hfail] at hok
            exact absurd hok (by simp)
          | succ k =>
            refine ⟨k, by simpa using hk, by simpa using hpos, ?_⟩
            have harith : n + 1 + k = n + (k + 1) := by omega
            rw [harith]
            simpa using hsi
      · rw [if_neg hall]
        rw [List.all_eq_true] at hall
        push_neg at hall
        obtain ⟨si, hmem, hfail⟩ := hall
        have hfail2 : svPairOk c (T.getD si dfltToken) v = false := by
          simpa using hfail
        constructor
        · intro _
          exact ⟨0, by simp, by simpa using hverb, si, by simpa using hmem,
            by simpa using hfail2⟩
        · intro _
          rfl

/-- C4: check_subject_verb_agreement returns false exactly when some verb
token has a mapped subject that violates number agreement (both declared,
different) or person agreement (verb declares a person different from the
person attributed to the subject, defaulting to defaultSubjPerson); in
particular a plural nsubj noun with head 1 under a singular verb at
position 1 fails the check. -/
theorem c4_subject_verb_agreement :
    (∀ (c : AgreementChecker) (tokens : List Token),
      check_subject_verb_agreement c tokens = false ↔ svViolation c tokens) ∧
    check_subject_verb_agreement defaultChecker [tokSubjNoun, tokVerbSing] = false := by
  refine ⟨fun c tokens => ?_, by decide⟩
  unfold check_subject_verb_agreement
  rw [svAux_false_iff c tokens tokens 0]
  unfold svViolation
  simp only [Nat.zero_add, svPairOk_false_iff]

/-- The first run closed from an open-run state of positive length has at
least that length. -/
theorem runsAux_first_ge :
    ∀ (ts : List Token) (rl : Option String) (n : Nat), 0 < n →
      ∃ m ∈ runsAux rl n ts, n ≤ m := by
  intro ts
  induction ts with
  | nil =>
    intro rl n hn
    refine ⟨n, ?_, le_refl n⟩
    simp [runsAux, hn]
  | cons t ts ih =>
    intro rl n hn
    simp only [runsAux]
    by_cases hA : (!(t.pos == some "ADJ")) = true
    · rw [if_pos hA]
      exact ⟨n, by simp [hn], le_refl n⟩
    · rw [if_neg hA]
      by_cases hExt : (!(normLemma t == "") && (some (normLemma t) == rl)) = true
      · rw [if_pos hExt]
        obtain ⟨m, hm, hle⟩ := ih rl (n + 1) (by omega)
        exact ⟨m, hm, by omega⟩
      · rw [if_neg hExt]
        exact ⟨n, by simp [hn], le_refl n⟩

/-- From an open-run state within the cap, the incremental run-cap test
fires exactly when some maximal run closed later is longer than the cap. -/
theorem runViolFrom_eq_any_runsAux (maxC : Nat) :
    ∀ (ts : List Token) (rl : Option String) (n : Nat), n ≤ maxC →
      runViolFrom maxC rl n ts
        = (runsAux rl n ts).any (fun m => decide (maxC < m)) := by
  intro ts
  induction ts with
  | nil =>
    intro rl n hn
    simp only [runViolFrom, runsAux]
    by_cases h : 0 < n
    · rw [if_pos h]
      simp [Nat.not_lt.mpr hn]
    · rw [if_neg h]
      simp
  | cons t ts ih =>
    intro rl n hn
    simp only [runViolFrom, runsAux]
    by_cases hA : (!(t.pos == some "ADJ")) = true
    · rw [if_pos hA, if_pos hA, List.any_append, ih none 0 (Nat.zero_le maxC)]
      have hfirst : (if 0 < n then [n] else []).any (fun m => decide (maxC < m)) = false := by
        by_cases h : 0 < n
        · simp [h, Nat.not_lt.mpr hn]
        · simp [h]
      rw [hfirst]
      simp
    · rw [if_neg hA, if_neg hA]
      by_cases hExt : (!(normLemma t == "") && (some (normLemma t) == rl)) = true
      · rw [if_pos hExt, if_pos hExt]
        have hrl : some (normLemma t) = rl := by
          have := ((Bool.and_eq_true _ _).mp hExt).2
          simpa using this
        by_cases hC : maxC < n + 1
        · rw [if_pos hC]
          obtain ⟨m, hm, hle⟩ := runsAux_first_ge ts rl (n + 1) (by omega)
          symm
          rw [List.any_eq_true]
          exact ⟨m, hm, by simpa using by omega⟩
        · rw [if_neg hC, ← hrl]
          exact ih (some (normLemma t)) (n + 1) (by omega)
      · rw [if_neg hExt, if_neg hExt]
        by_cases hC : maxC < 1
        · rw [if_pos hC]
          obtain ⟨m, hm, hle⟩ := runsAux_first_ge ts (some (normLemma t)) 1 (by omega)
          symm
          rw [List.any_append, Bool.or_eq_true]
          refine Or.inr ?_
          rw [List.any_eq_true]
          exact ⟨m, hm, by simpa using by omega⟩
        · rw [if_neg hC, List.any_append, ih (some (normLemma t)) 1 (by omega)]
          have hfirst : (if 0 < n then [n] else []).any (fun m => decide (maxC < m)) = false := by
            by_cases h : 0 < n
            · simp [h, Nat.not_lt.mpr hn]
            · simp [h]
          rw [hfirst]
          simp

/-- From an arbitrary accumulated count state, the incremental per-sentence
count test fires exactly when some non-empty adjective lemma of the
remaining list has accumulated count plus remaining occurrences above the
cap. -/
theorem countViolFrom_eq_any (maxS : Nat) :
    ∀ (ts : List Token) (counts : String → Nat),
      countViolFrom maxS counts ts
        = ts.any (fun u => u.pos == some "ADJ" && !(normLemma u == "")
            && decide (maxS < counts (normLemma u) + adjLemmaCount ts (normLemma u))) := by
  intro ts
  induction ts with
  | nil => intro counts; simp [countViolFrom]
  | cons t ts ih =>
    intro counts
    simp only [countViolFrom, List.any_cons]
    by_cases hA : (!(t.pos == some "ADJ")) = true
    · rw [if_pos hA]
      have hposf : (t.pos == some "ADJ") = false := by simpa using hA
      have hcnt : ∀ l, adjLemmaCount (t :: ts) l = adjLemmaCount ts l := by
        intro l
        unfold adjLemmaCount
        rw [List.countP_cons]
        simp [hposf]
      rw [ih counts, hposf]
      simp only [Bool.false_and, Bool.false_or]
      congr 1
      funext u
      rw [hcnt]
    · rw [if_neg hA]
      have hpost : (t.pos == some "ADJ") = true := by simpa using hA
      by_cases hL : (!(normLemma t == "")) = true
      · rw [if_pos hL]
        have hlne : (normLemma t == "") = false := by simpa using hL
        have hself : (if (normLemma t == normLemma t) = true then counts (normLemma t) + 1
            else counts (normLemma t)) = counts (normLemma t) + 1 := by simp
        have hcnt_t : adjLemmaCount (t :: ts) (normLemma t)
            = adjLemmaCount ts (normLemma t) + 1 := by
          unfold adjLemmaCount
          rw [List.countP_cons]
          simp [hpost]
        have hcnt_ne : ∀ l, l ≠ normLemma t →
            adjLemmaCount (t :: ts) l = adjLemmaCount ts l := by
          intro l hl
          unfold adjLemmaCount
          rw [List.countP_cons]
          have hne : (normLemma t == l) = false := by
            simpa using fun he => hl he.symm
          simp [hne]
        simp only [hself]
        by_cases hS : maxS < counts (normLemma t) + 1
        · rw [if_pos hS]
          symm
          have hheadlt : maxS < counts (normLemma t) + adjLemmaCount (t :: ts) (normLemma t) := by
            rw [hcnt_t]
            omega
          simp [hpost, hlne, hheadlt]
        · rw [if_neg hS]
          rw [ih (fun x => if x == normLemma t then counts (normLemma t) + 1 else counts x)]
          have hfun : ∀ u : Token,
              (u.pos == some "ADJ" && !(normLemma u == "")
                && decide (maxS <
                  (if normLemma u == normLemma t then counts (normLemma t) + 1
                    else counts (normLemma u)) + adjLemmaCount ts (normLemma u)))
              = (u.pos == some "ADJ" && !(normLemma u == "")
                && decide (maxS < counts (normLemma u) + adjLemmaCount (t :: ts) (normLemma u))) := by
            intro u
            by_cases hu : (normLemma u == normLemma t) = true
            · have hueq : normLemma u = normLemma t := by simpa using hu
              rw [hu, hueq, hcnt_t]
              have harith : counts (normLemma t) + 1 + adjLemmaCount ts (normLemma t)
                  = counts (normLemma t) + (adjLemmaCount ts (normLemma t) + 1) := by omega
              rw [if_pos rfl, harith]
            · have huneq : normLemma u ≠ normLemma t := by simpa using hu
              rw [hcnt_ne _ huneq]
              rw [if_neg (by simpa using hu)]
          have hany : ts.any (fun u => u.pos == some "ADJ" && !(normLemma u == "")
                && decide (maxS <
                  (fun x => if x == normLemma t then counts (normLemma t) + 1 else counts x)
                    (normLemma u) + adjLemmaCount ts (normLemma u)))
              = ts.any (fun u => u.pos == some "ADJ" && !(normLemma u == "")
                && decide (maxS < counts (normLemma u) + adjLemmaCount (t :: ts) (normLemma u))) := by
            congr 1
            funext u
            exact hfun u
          rw [hany]
          by_cases hH : (t.pos == some "ADJ" && !(normLemma t == "")
              && decide (maxS < counts (normLemma t) + adjLemmaCount (t :: ts) (normLemma t))) = true
          · have hlt : maxS < counts (normLemma t) + adjLemmaCount (t :: ts) (normLemma t) := by
              have hd := ((Bool.and_eq_true _ _).mp hH).2
              simpa using hd
            have hpos_cnt : 0 < adjLemmaCount ts (normLemma t) := by
              rw [hcnt_t] at hlt
              omega
            have hex : ∃ a ∈ ts, a.pos = some "ADJ" ∧ normLemma a = normLemma t := by
              simpa [adjLemmaCount, List.countP_pos] using hpos_cnt
            obtain ⟨u, hu_mem, hu1p, hu2⟩ := hex
            have hu1 : (u.pos == some "ADJ") = true := by simpa using hu1p
            have hts : (ts.any (fun u => u.pos == some "ADJ" && !(normLemma u == "")
                && decide (maxS < counts (normLemma u)
                  + adjLemmaCount (t :: ts) (normLemma u)))) = true := by
              rw [List.any_eq_true]
              refine ⟨u, hu_mem, ?_⟩
              rw [hu1, hu2, hlne]
              simpa using hlt
            rw [hts, hH]
            rfl
          · rw [eq_false_of_ne_true hH]
            simp
      · rw [if_neg hL]
        have hleq : normLemma t = "" := by simpa using hL
        have hhead : (t.pos == some "ADJ" && !(normLemma t == "")
            && decide (maxS < counts (normLemma t)
              + adjLemmaCount (t :: ts) (normLemma t))) = false := by
          simp [hleq]
        rw [hhead, ih counts]
        simp only [Bool.false_or]
        congr 1
        funext u
        by_cases hu : (normLemma u == "") = true
        · simp [hu]
        · have hune : normLemma u ≠ "" := by simpa using hu
          have hne : adjLemmaCount (t :: ts) (normLemma u)
              = adjLemmaCount ts (normLemma u) := by
            unfold adjLemmaCount
            rw [List.countP_cons]
            have hteq : (normLemma t == normLemma u) = false := by
              rw [hleq]
              simpa using fun he => hune he.symm
            simp [hteq]
          rw [hne]

/-- The anti-repetition loop from an arbitrary state accepts exactly when
neither the run-cap test nor the per-sentence count test fires on the
remaining tokens. -/
theorem antiRepAux_decomposition (maxC maxS : Nat) :
    ∀ (ts : List Token) (rl : Option String) (n : Nat) (counts : String → Nat),
      antiRepAux maxC maxS rl n counts ts
        = (!(runViolFrom maxC rl n ts) && !(countViolFrom maxS counts ts)) := by
  intro ts
  induction ts with
  | nil => intro rl n counts; simp [antiRepAux, runViolFrom, countViolFrom]
  | cons t ts ih =>
    intro rl n counts
    simp only [antiRepAux, runViolFrom, countViolFrom]
    by_cases hA : (!(t.pos == some "ADJ")) = true
    · rw [if_pos hA, if_pos hA, if_pos hA]
      exact ih none 0 counts
    · rw [if_neg hA, if_neg hA, if_neg hA]
      by_cases hR : maxC <
          (if (!(normLemma t == "") && (some (normLemma t) == rl)) = true then n + 1 else 1)
      · rw [if_pos hR, if_pos hR]
        simp
      · rw [if_neg hR, if_neg hR]
        by_cases hL : (!(normLemma t == "")) = true
        · rw [if_pos hL, if_pos hL]
          have hself : (if (normLemma t == normLemma t) = true
              then counts (normLemma t) + 1 else counts (normLemma t))
              = counts (normLemma t) + 1 := by simp
          simp only [hself]
          by_cases hS : maxS < counts (normLemma t) + 1
          · rw [if_pos hS, if_pos hS]
            simp
          · rw [if_neg hS, if_neg hS]
            rw [ih _ _ _]
        · rw [if_neg hL, if_neg hL]
          rw [ih _ _ _]

/-- check_anti_repetition fails exactly when the total adjective count
exceeds the cap, or some maximal adjacent adjective run (runs chain only on
equal non-empty normalized lemmas; every adjective still opens a run of
length at least 1) is longer than the consecutive cap, or some non-empty
lemma occurs more often among the adjective tokens than the per-sentence
cap. -/
theorem check_anti_repetition_false_iff (c : AgreementChecker) (tokens : List Token) :
    check_anti_repetition c tokens = false ↔
      (c.max_total_adjs < tokens.countP (fun t => t.pos == some "ADJ")) ∨
      (∃ m ∈ adjRunLens tokens, c.max_consecutive_same_adj < m) ∨
      (∃ t ∈ tokens, t.pos = some "ADJ" ∧ normLemma t ≠ "" ∧
        c.max_same_adj_per_sentence < adjLemmaCount tokens (normLemma t)) := by
  unfold check_anti_repetition
  by_cases hT : c.max_total_adjs < tokens.countP (fun t => t.pos == some "ADJ")
  · rw [if_pos hT]
    simp [hT]
  · rw [if_neg hT]
    rw [antiRepAux_decomposition,
      runViolFrom_eq_any_runsAux c.max_consecutive_same_adj tokens none 0 (Nat.zero_le _),
      countViolFrom_eq_any c.max_same_adj_per_sentence tokens (fun _ => 0)]
    simp only [Bool.and_eq_false_iff, Bool.not_eq_false']
    constructor
    · rintro (h | h)
      · rw [List.any_eq_true] at h
        obtain ⟨m, hm, hlt⟩ := h
        exact Or.inr (Or.inl ⟨m, by simpa [adjRunLens] using hm, by simpa using hlt⟩)
      · rw [List.any_eq_true] at h
        obtain ⟨u, hu, hp⟩ := h
        rw [Bool.and_eq_true, Bool.and_eq_true] at hp
        obtain ⟨⟨hp1, hp2⟩, hp3⟩ := hp
        refine Or.inr (Or.inr ⟨u, hu, by simpa using hp1, by simpa using hp2, ?_⟩)
        have hlt := of_decide_eq_true hp3
        simpa using hlt
    · rintro (h | h | h)
      · exact absurd h hT
      · obtain ⟨m, hm, hlt⟩ := h
        exact Or.inl (List.any_eq_true.mpr
          ⟨m, by simpa [adjRunLens] using hm, by simpa using hlt⟩)
      · obtain ⟨u, hu, h1, h2, h3⟩ := h
        refine Or.inr (List.any_eq_true.mpr ⟨u, hu, ?_⟩)
        rw [Bool.and_eq_true, Bool.and_eq_true]
        exact ⟨⟨by simpa using h1, by simpa using h2⟩, by simpa using h3⟩

/-- C5 counterexample to the claim as stated: two adjacent adjective tokens
with no lemma and no surface text share the same normalized lemma (the empty
string), so under the claim's literal run notion they form a run of length
2 > maxConsecutiveSameAdj = 1 and the check should fail, yet
check_anti_repetition accepts the sequence: the code never lets an empty
lemma extend a run (each such adjective remains a maximal run of length 1)
and never counts it toward the per-sentence cap. -/
theorem c5_counterexample_empty_lemma :
    (∃ m ∈ claimRunLens [tokAdjBare, tokAdjBare], 1 < m) ∧
    normLemma tokAdjBare = normLemma tokAdjBare ∧
    check_anti_repetition { max_consecutive_same_adj := 1 }
      [tokAdjBare, tokAdjBare] = true := by
  exact ⟨⟨2, by decide, by decide⟩, rfl, by decide⟩

/-- C5 (amended): check_anti_repetition returns false exactly when the total
adjective count exceeds maxTotalAdjs, or some maximal adjacent adjective run
is longer than maxConsecutiveSameAdj — where runs chain only on equal
non-empty normalized lemmas, so an empty-lemma adjective still opens a run
of length 1 but never extends one — or some non-empty lemma occurs more
often among the adjective tokens than maxSameAdjPerSentence.  With
maxConsecutiveSameAdj = 1 the run petit petit fails and petit grand passes;
with maxConsecutiveSameAdj = 0 even a single adjective with empty
normalized lemma fails (its own run of length 1 exceeds the cap). -/
theorem c5_anti_repetition :
    (∀ (c : AgreementChecker) (tokens : List Token),
      check_anti_repetition c tokens = false ↔
        (c.max_total_adjs < tokens.countP (fun t => t.pos == some "ADJ")) ∨
        (∃ m ∈ adjRunLens tokens, c.max_consecutive_same_adj < m) ∨
        (∃ t ∈ tokens, t.pos = some "ADJ" ∧ normLemma t ≠ "" ∧
          c.max_same_adj_per_sentence < adjLemmaCount tokens (normLemma t))) ∧
    check_anti_repetition { max_consecutive_same_adj := 1 }
      [tokAdj "petit", tokAdj "petit"] = false ∧
    check_anti_repetition { max_consecutive_same_adj := 1 }
      [tokAdj "petit", tokAdj "grand"] = true ∧
    check_anti_repetition { max_consecutive_same_adj := 0 } [tokAdjBare] = false ∧
    adjRunLens [tokAdjBare] = [1] := by
  exact ⟨check_anti_repetition_false_iff, by decide, by decide, by decide, by decide⟩

/-- C6: one beam-search step extends every beam entry with every vocabulary
word, keeps an extension only when the constraints pass on a fresh analysis
of the whole extended sequence (beamStepCandidates), sorts the survivors by
score descending and retains the top beam_width, stopping when no candidate
survives; and when every single-word extension fails the configured
constraints, the search returns the empty beam for any positive max_length
instead of running all steps. -/
theorem c6_beam_search_step_and_termination :
    (∀ (analyze : String → List Token) (scores : List Int) (vocab : List String)
      (bw : Nat) (cs : List String) (steps : Nat) (beams : List (List String × Int)),
      beamLoop analyze scores vocab bw cs (steps + 1) beams =
        (let candidates := beamStepCandidates analyze scores vocab cs beams
         let newBeams := (sortByScoreDesc candidates).take bw
         if newBeams.isEmpty then newBeams
         else beamLoop analyze scores vocab bw cs steps newBeams)) ∧
    (∀ (analyze : String → List Token) (scores : List Int) (vocab : List String)
      (bw ml : Nat) (cs : List String),
      cs ≠ [] →
      (∀ w ∈ vocab, decoder_check_constraints analyze [w] cs = false) →
      0 < ml →
      beam_search_with_constraints analyze scores vocab bw ml cs = []) := by
  refine ⟨fun analyze scores vocab bw cs steps beams => rfl,
    fun analyze scores vocab bw ml cs hcs hfail hml => ?_⟩
  obtain ⟨k, rfl⟩ : ∃ k, ml = k + 1 := ⟨ml - 1, by omega⟩
  unfold beam_search_with_constraints
  have hne : cs.isEmpty = false := by
    cases cs with
    | nil => exact absurd rfl hcs
    | cons a l => rfl
  rw [hne]
  simp only [Bool.false_eq_true, if_false, beamLoop]
  have hcand : beamStepCandidates analyze scores vocab cs [([], 0)] = [] := by
    unfold beamStepCandidates
    simp only [List.map_cons, List.map_nil, List.flatten_cons, List.flatten_nil,
      List.append_nil]
    rw [List.filterMap_eq_nil]
    intro iw hiw
    have hw : iw.2 ∈ vocab :=
      List.getElem?_mem (List.mem_enum_iff_getElem?.mp hiw)
    have hf := hfail iw.2 hw
    simp only [List.nil_append]
    rw [hf]
    simp
  rw [hcand]
  simp [sortByScoreDesc, List.insertionSort]

/-- Witness for C6: a two-word vocabulary whose analyzer always reports a
gender conflict makes every single-word extension fail, and the search
returns the empty beam with beamWidth 2 and maxLength 3. -/
theorem c6_beam_search_witness :
    beam_search_with_constraints
      (fun _ => [tokGender "DET" "fem", tokGender "NOUN" "masc"])
      [1, 2] ["le", "chat"] 2 3 ["gender_agreement"] = [] := by
  exact c6_beam_search_step_and_termination.2
    (fun _ => [tokGender "DET" "fem", tokGender "NOUN" "masc"])
    [1, 2] ["le", "chat"] 2 3 ["gender_agreement"]
    (by decide) (by decide) (by decide)

/-!
The frame property of the backtracking generator: every call returns with
the three working buffers exactly as it found them; only the candidates
accumulator may grow.  The three theorems mirror the recursion of
backtrack / wordsLoop / processWord.
-/

mutual

theorem backtrack_frame (P : GenParams) :
    ∀ (l : List String) (rc : Nat) (ac : String → Nat) (st : GenState),
      (backtrack P l rc ac st).words = st.words ∧
      (backtrack P l rc ac st).tokens = st.tokens ∧
      (backtrack P l rc ac st).posSeq = st.posSeq
  | [], rc, ac, st => by
    unfold backtrack
    split <;> exact ⟨rfl, rfl, rfl⟩
  | spec :: rest, rc, ac, st => by
    have hW := wordsLoop_frame P spec rest rc ac
      (lookupWords P.lexical_items (stripMarkers spec)) st
    unfold backtrack
    by_cases hb : (endsWithChar spec '?' || endsWithChar spec '*') = true
    · rw [if_pos hb]
      have hB := backtrack_frame P rest 0 (fun _ => 0)
        (wordsLoop P spec rest rc ac (lookupWords P.lexical_items (stripMarkers spec)) st)
      exact ⟨hB.1.trans hW.1, hB.2.1.trans hW.2.1, hB.2.2.trans hW.2.2⟩
    · rw [if_neg hb]
      exact hW
termination_by l rc ac st => (l.length, P.max_repetitions + 1 - rc, 2, 0)

theorem wordsLoop_frame (P : GenParams) (spec : String) (rest : List String)
    (rc : Nat) (ac : String → Nat) :
    ∀ (ws : List String) (st : GenState),
      (wordsLoop P spec rest rc ac ws st).words = st.words ∧
      (wordsLoop P spec rest rc ac ws st).tokens = st.tokens ∧
      (wordsLoop P spec rest rc ac ws st).posSeq = st.posSeq
  | [], st => by
    unfold wordsLoop
    exact ⟨rfl, rfl, rfl⟩
  | word :: ws, st => by
    have hP := processWord_frame P spec rest rc ac word st
    have hW := wordsLoop_frame P spec rest rc ac ws
      (processWord P spec rest rc ac word st)
    unfold wordsLoop
    exact ⟨hW.1.trans hP.1, hW.2.1.trans hP.2.1, hW.2.2.trans hP.2.2⟩
termination_by ws st => (rest.length + 1, P.max_repetitions + 1 - rc, 1, ws.length + 1)

theorem processWord_frame (P : GenParams) (spec : String) (rest : List String)
    (rc : Nat) (ac : String → Nat) (word : String) (st : GenState) :
    (processWord P spec rest rc ac word st).words = st.words ∧
    (processWord P spec rest rc ac word st).tokens = st.tokens ∧
    (processWord P spec rest rc ac word st).posSeq = st.posSeq := by
  simp only [processWord]
  split
  · exact ⟨rfl, rfl, rfl⟩
  · rename_i wt hwt
    split
    · exact ⟨rfl, rfl, rfl⟩
    · split
      · exact ⟨rfl, rfl, rfl⟩
      · split
        · refine ⟨by simp, ?_, by simp⟩
          exact List.take_left' (by simp)
        · by_cases hg : endsWithChar spec '*' = true ∧ rc + 1 ≤ P.max_repetitions
          · rw [dif_pos hg]
            refine ⟨?_, ?_, ?_⟩
            · rw [(backtrack_frame P rest 0 _ _).1,
                (backtrack_frame P (spec :: rest) (rc + 1) _ _).1]
              simp
            · rw [(backtrack_frame P rest 0 _ _).2.1,
                (backtrack_frame P (spec :: rest) (rc + 1) _ _).2.1]
              exact List.take_left' (by simp)
            · rw [(backtrack_frame P rest 0 _ _).2.2,
                (backtrack_frame P (spec :: rest) (rc + 1) _ _).2.2]
              simp
          · rw [dif_neg hg]
            refine ⟨?_, ?_, ?_⟩
            · rw [(backtrack_frame P rest 0 _ _).1]
              simp
            · rw [(backtrack_frame P rest 0 _ _).2.1]
              exact List.take_left' (by simp)
            · rw [(backtrack_frame P rest 0 _ _).2.2]
              simp
termination_by (rest.length + 1, P.max_repetitions + 1 - rc, 0, 0)

end

/-- C7: every invocation of the backtracking generator returns with the
three working buffers (surface words, analyzed tokens, part-of-speech tags)
exactly equal to their contents at entry, on every exit path including
pruned branches; in particular after the top-level run that collects the
candidates the buffers are empty again. -/
theorem c7_buffer_discipline :
    (∀ (P : GenParams) (l : List String) (rc : Nat) (ac : String → Nat)
      (st : GenState),
      (backtrack P l rc ac st).words = st.words ∧
      (backtrack P l rc ac st).tokens = st.tokens ∧
      (backtrack P l rc ac st).posSeq = st.posSeq) ∧
    (∀ (P : GenParams) (pattern : List String),
      (backtrack P pattern 0 (fun _ => 0) ⟨[], [], [], []⟩).words = [] ∧
      (backtrack P pattern 0 (fun _ => 0) ⟨[], [], [], []⟩).tokens = [] ∧
      (backtrack P pattern 0 (fun _ => 0) ⟨[], [], [], []⟩).posSeq = []) := by
  exact ⟨fun P => backtrack_frame P,
    fun P pattern => backtrack_frame P pattern 0 (fun _ => 0) ⟨[], [], [], []⟩⟩

/-- Replacing a head affects no position other than i. -/
theorem setHeadAt_getD_ne (tokens : List Token) (i : Nat) (x : Option Int)
    (j : Nat) (hji : i ≠ j) :
    (setHeadAt tokens i x).getD j dfltToken = tokens.getD j dfltToken := by
  unfold setHeadAt
  rw [List.getD_eq_getElem?_getD, List.getElem?_set_ne hji, ← List.getD_eq_getElem?_getD]

/-- Replacing a head preserves the pos field everywhere. -/
theorem setHeadAt_pos (tokens : List Token) (i : Nat) (x : Option Int) (j : Nat) :
    ((setHeadAt tokens i x).getD j dfltToken).pos = (tokens.getD j dfltToken).pos := by
  by_cases hji : i = j
  · subst hji
    unfold setHeadAt
    rw [List.getD_eq_getElem?_getD, List.getElem?_set_self']
    by_cases hlen : i < tokens.length
    · rw [List.getElem?_eq_getElem hlen]
      simp [setHead, List.getD_eq_getElem?_getD, List.getElem?_eq_getElem hlen]
    · rw [List.getElem?_eq_none (by omega)]
      simp [List.getD_eq_getElem?_getD, List.getElem?_eq_none (show tokens.length ≤ i by omega)]
  · rw [setHeadAt_getD_ne tokens i x j hji]

/-- Replacing a head preserves the features everywhere. -/
theorem setHeadAt_features (tokens : List Token) (i : Nat) (x : Option Int) (j : Nat) :
    ((setHeadAt tokens i x).getD j dfltToken).features
      = (tokens.getD j dfltToken).features := by
  by_cases hji : i = j
  · subst hji
    unfold setHeadAt
    rw [List.getD_eq_getElem?_getD, List.getElem?_set_self']
    by_cases hlen : i < tokens.length
    · rw [List.getElem?_eq_getElem hlen]
      simp [setHead, List.getD_eq_getElem?_getD, List.getElem?_eq_getElem hlen]
    · rw [List.getElem?_eq_none (by omega)]
      simp [List.getD_eq_getElem?_getD, List.getElem?_eq_none (show tokens.length ≤ i by omega)]
  · rw [setHeadAt_getD_ne tokens i x j hji]

/-- Erasing the head of a token whose head matches no verb position leaves
the subject lists consulted at verb positions unchanged. -/
theorem subjectsOfHead_setHeadAt (tokens : List Token) (i : Nat) (h : Int)
    (hhead : (tokens.getD i dfltToken).head = some h)
    (hverbs : ∀ vi, vi < tokens.length → (tokens.getD vi dfltToken).pos = some "VERB" →
      (Int.ofNat vi) ≠ h)
    (k : Nat) (hk : k < tokens.length)
    (hkpos : (tokens.getD k dfltToken).pos = some "VERB") :
    subjectsOfHead (setHeadAt tokens i none) (Int.ofNat k)
      = subjectsOfHead tokens (Int.ofNat k) := by
  unfold subjectsOfHead
  rw [show (setHeadAt tokens i none).length = tokens.length by simp [setHeadAt]]
  apply List.filter_congr
  intro j hj
  rw [List.mem_range] at hj
  by_cases hji : i = j
  · subst hji
    by_cases hlen : i < tokens.length
    · have hL : (setHeadAt tokens i none).getD i dfltToken
          = setHead (tokens.getD i dfltToken) none := by
        unfold setHeadAt
        rw [List.getD_eq_getElem?_getD, List.getElem?_set_self hlen]
        rfl
      rw [hL]
      have h1 : (setHead (tokens.getD i dfltToken) none).head = none := rfl
      have h2 : (some h == some (Int.ofNat k)) = false := by
        have := hverbs k hk hkpos
        simpa using fun he => this he.symm
      simp only [h1, hhead, h2]
      simp [setHead]
    · omega
  · rw [setHeadAt_getD_ne tokens i none j hji]

/-- Erasing an unmatched head leaves the verb-subject number test
unchanged at every verb position. -/
theorem verbSubjOk_setHeadAt (tokens : List Token) (i : Nat) (h : Int)
    (hhead : (tokens.getD i dfltToken).head = some h)
    (hverbs : ∀ vi, vi < tokens.length → (tokens.getD vi dfltToken).pos = some "VERB" →
      (Int.ofNat vi) ≠ h)
    (k : Nat) (hk : k < tokens.length)
    (hkpos : (tokens.getD k dfltToken).pos = some "VERB") (nn : Option String) :
    verbSubjOk (setHeadAt tokens i none) k nn = verbSubjOk tokens k nn := by
  unfold verbSubjOk
  rw [subjectsOfHead_setHeadAt tokens i h hhead hverbs k hk hkpos]
  congr 1
  funext si
  rw [setHeadAt_features tokens i none si]

/-- The pairwise subject-verb test reads only the feature dictionaries of
its two tokens. -/
theorem svPairOk_congr (c : AgreementChecker) {s s2 v v2 : Token}
    (hs : s.features = s2.features) (hv : v.features = v2.features) :
    svPairOk c s v = svPairOk c s2 v2 := by
  unfold svPairOk
  rw [hs, hv]

/-- Erasing an unmatched head leaves the number scan unchanged (fueled form,
scanning from position n). -/
theorem numberAux_setHeadAt (tokens : List Token) (i : Nat) (h : Int)
    (hhead : (tokens.getD i dfltToken).head = some h)
    (hverbs : ∀ vi, vi < tokens.length → (tokens.getD vi dfltToken).pos = some "VERB" →
      (Int.ofNat vi) ≠ h) :
    ∀ (fuel n : Nat) (b : Option String), tokens.length - n ≤ fuel →
      numberAux (setHeadAt tokens i none) n b ((setHeadAt tokens i none).drop n)
        = numberAux tokens n b (tokens.drop n) := by
  intro fuel
  induction fuel with
  | zero =>
    intro n b hle
    have hn : tokens.length ≤ n := by omega
    rw [List.drop_eq_nil_of_le hn,
      List.drop_eq_nil_of_le (by simpa [setHeadAt] using hn)]
    cases b <;> rfl
  | succ fuel ih =>
    intro n b hle
    by_cases hn : n < tokens.length
    · have hn2 : n < (setHeadAt tokens i none).length := by simpa [setHeadAt] using hn
      have e1 : tokens.drop n = tokens.getD n dfltToken :: tokens.drop (n + 1) := by
        rw [List.drop_eq_getElem_cons hn, List.getD_eq_getElem tokens dfltToken hn]
      have e2 : (setHeadAt tokens i none).drop n
          = (setHeadAt tokens i none).getD n dfltToken
            :: (setHeadAt tokens i none).drop (n + 1) := by
        rw [List.drop_eq_getElem_cons hn2,
          List.getD_eq_getElem (setHeadAt tokens i none) dfltToken hn2]
      rw [e1, e2]
      have hpos := setHeadAt_pos tokens i none n
      have hfeat := setHeadAt_features tokens i none n
      cases b with
      | none =>
        simp only [numberAux, hpos, hfeat]
        by_cases h1 : (!(posIn (tokens.getD n dfltToken).pos POS_NUMBER)) = true
        · rw [if_pos h1, if_pos h1]; exact ih (n + 1) none (by omega)
        · rw [if_neg h1, if_neg h1]
          by_cases h2 : (!(truthy (tokens.getD n dfltToken).features.number)) = true
          · rw [if_pos h2, if_pos h2]; exact ih (n + 1) none (by omega)
          · rw [if_neg h2, if_neg h2]
            by_cases h3 : ((tokens.getD n dfltToken).pos == some "VERB") = true
            · rw [if_pos h3, if_pos h3]
              rw [verbSubjOk_setHeadAt tokens i h hhead hverbs n hn (by simpa using h3)
                ((tokens.getD n dfltToken).features.number)]
              by_cases h4 : verbSubjOk tokens n
                  ((tokens.getD n dfltToken).features.number) = true
              · rw [if_pos h4, if_pos h4]; exact ih (n + 1) none (by omega)
              · rw [if_neg h4, if_neg h4]
            · rw [if_neg h3, if_neg h3]
              exact ih (n + 1) ((tokens.getD n dfltToken).features.number) (by omega)
      | some bv =>
        simp only [numberAux, hpos, hfeat]
        by_cases h1 : (!(posIn (tokens.getD n dfltToken).pos POS_NUMBER)) = true
        · rw [if_pos h1, if_pos h1]; exact ih (n + 1) (some bv) (by omega)
        · rw [if_neg h1, if_neg h1]
          by_cases h2 : (!(truthy (tokens.getD n dfltToken).features.number)) = true
          · rw [if_pos h2, if_pos h2]; exact ih (n + 1) (some bv) (by omega)
          · rw [if_neg h2, if_neg h2]
            by_cases h3 : ((tokens.getD n dfltToken).pos == some "VERB") = true
            · rw [if_pos h3, if_pos h3]
              rw [verbSubjOk_setHeadAt tokens i h hhead hverbs n hn (by simpa using h3)
                ((tokens.getD n dfltToken).features.number)]
              by_cases h4 : verbSubjOk tokens n
                  ((tokens.getD n dfltToken).features.number) = true
              · rw [if_pos h4, if_pos h4]; exact ih (n + 1) (some bv) (by omega)
              · rw [if_neg h4, if_neg h4]
            · rw [if_neg h3, if_neg h3]
              by_cases h4 : ((tokens.getD n dfltToken).features.number == some bv) = true
              · rw [if_pos h4, if_pos h4]; exact ih (n + 1) (some bv) (by omega)
              · rw [if_neg h4, if_neg h4]
    · have hnle : tokens.length ≤ n := by omega
      rw [List.drop_eq_nil_of_le hnle,
        List.drop_eq_nil_of_le (by simpa [setHeadAt] using hnle)]
      cases b <;> rfl

/-- Erasing an unmatched head leaves the subject-verb scan unchanged
(fueled form, scanning from position n). -/
theorem svAux_setHeadAt (c : AgreementChecker) (tokens : List Token) (i : Nat) (h : Int)
    (hhead : (tokens.getD i dfltToken).head = some h)
    (hverbs : ∀ vi, vi < tokens.length → (tokens.getD vi dfltToken).pos = some "VERB" →
      (Int.ofNat vi) ≠ h) :
    ∀ (fuel n : Nat), tokens.length - n ≤ fuel →
      svAux c (setHeadAt tokens i none) n ((setHeadAt tokens i none).drop n)
        = svAux c tokens n (tokens.drop n) := by
  intro fuel
  induction fuel with
  | zero =>
    intro n hle
    have hn : tokens.length ≤ n := by omega
    rw [List.drop_eq_nil_of_le hn,
      List.drop_eq_nil_of_le (by simpa [setHeadAt] using hn)]
    rfl
  | succ fuel ih =>
    intro n hle
    by_cases hn : n < tokens.length
    · have hn2 : n < (setHeadAt tokens i none).length := by simpa [setHeadAt] using hn
      have e1 : tokens.drop n = tokens.getD n dfltToken :: tokens.drop (n + 1) := by
        rw [List.drop_eq_getElem_cons hn, List.getD_eq_getElem tokens dfltToken hn]
      have e2 : (setHeadAt tokens i none).drop n
          = (setHeadAt tokens i none).getD n dfltToken
            :: (setHeadAt tokens i none).drop (n + 1) := by
        rw [List.drop_eq_getElem_cons hn2,
          List.getD_eq_getElem (setHeadAt tokens i none) dfltToken hn2]
      rw [e1, e2]
      have hpos := setHeadAt_pos tokens i none n
      simp only [svAux, hpos]
      by_cases h1 : (!((tokens.getD n dfltToken).pos == some "VERB")) = true
      · rw [if_pos h1, if_pos h1]; exact ih (n + 1) (by omega)
      · rw [if_neg h1, if_neg h1]
        have hverbn : (tokens.getD n dfltToken).pos = some "VERB" := by
          have hb : ((tokens.getD n dfltToken).pos == some "VERB") = true := by
            simpa using h1
          simpa using hb
        have hall : ((subjectsOfHead (setHeadAt tokens i none) (Int.ofNat n)).all
            (fun si => svPairOk c ((setHeadAt tokens i none).getD si dfltToken)
              ((setHeadAt tokens i none).getD n dfltToken)))
            = ((subjectsOfHead tokens (Int.ofNat n)).all
              (fun si => svPairOk c (tokens.getD si dfltToken)
                (tokens.getD n dfltToken))) := by
          rw [subjectsOfHead_setHeadAt tokens i h hhead hverbs n hn hverbn]
          congr 1
          funext si
          exact svPairOk_congr c (setHeadAt_features tokens i none si)
            (setHeadAt_features tokens i none n)
        rw [hall]
        by_cases h2 : ((subjectsOfHead tokens (Int.ofNat n)).all
            (fun si => svPairOk c (tokens.getD si dfltToken)
              (tokens.getD n dfltToken))) = true
        · rw [if_pos h2, if_pos h2]; exact ih (n + 1) (by omega)
        · rw [if_neg h2, if_neg h2]
    · have hnle : tokens.length ≤ n := by omega
      rw [List.drop_eq_nil_of_le hnle,
        List.drop_eq_nil_of_le (by simpa [setHeadAt] using hnle)]
      rfl

/-- C10: the rule checks use head values only as subject-map keys matched
against token positions, so a token whose head matches no verb position
(negative, out of range, or simply pointing elsewhere) is ignored by
check_number_agreement and check_subject_verb_agreement: erasing its head
value changes neither outcome. -/
theorem c10_unmatched_head_ignored
    (c : AgreementChecker) (tokens : List Token) (i : Nat) (h : Int)
    (hhead : (tokens.getD i dfltToken).head = some h)
    (hverbs : ∀ vi, vi < tokens.length → (tokens.getD vi dfltToken).pos = some "VERB" →
      (Int.ofNat vi) ≠ h) :
    check_number_agreement (setHeadAt tokens i none) = check_number_agreement tokens ∧
    check_subject_verb_agreement c (setHeadAt tokens i none)
      = check_subject_verb_agreement c tokens := by
  constructor
  · unfold check_number_agreement
    have hx := numberAux_setHeadAt tokens i h hhead hverbs tokens.length 0 none (by omega)
    simpa using hx
  · unfold check_subject_verb_agreement
    have hx := svAux_setHeadAt c tokens i h hhead hverbs tokens.length 0 (by omega)
    simpa using hx

/-- Witness for C10: a subject noun with the out-of-range head -1 next to a
verb: erasing the stray head changes neither check. -/
theorem c10_unmatched_head_ignored_witness :
    check_number_agreement (setHeadAt [tokSubjNounBadHead, tokVerbSing] 0 none)
      = check_number_agreement [tokSubjNounBadHead, tokVerbSing] ∧
    check_subject_verb_agreement defaultChecker
        (setHeadAt [tokSubjNounBadHead, tokVerbSing] 0 none)
      = check_subject_verb_agreement defaultChecker [tokSubjNounBadHead, tokVerbSing] := by
  exact c10_unmatched_head_ignored defaultChecker [tokSubjNounBadHead, tokVerbSing]
    0 (-1) (by decide) (by decide)
